import Mathlib

/-!
Verification of the geojs tile cache and tile geometry core.

The tile geometry definitions are translated from `src/core/tile.js`; the
osm-layer tile eviction pass is translated from `src/core/osmLayer.js`.
The `geo.tileCache` implementation (`src/core/tileCache.js`) is not present
in the source tree — only its test suite is — so the cache operations are
modelled from the specification (spec.md §4.1) and checked against the
scenarios of the test suite.
-/

set_option autoImplicit false

namespace GeoJS

/-- An integer point `{x, y}`, used for tile `size` and `overlap`
(`tile.js` lines 37-39; the spec's data model declares these integer). -/
structure IntPt where
  x : Int
  y : Int
deriving DecidableEq

/-- A tile index `{x, y, level?}` (`tile.js` `spec.index`); `level` is
optional and treated as 0 when absent (`this._index.level || 0`). -/
structure TileIndex where
  x : Int
  y : Int
  level : Option Int := none
deriving DecidableEq

/-- The value data of `geo.tile` (`tile.js` lines 37-39): `index`, `size`
and `overlap` (defaulting to `{x: 0, y: 0}`). -/
structure Tile where
  index : TileIndex
  size : IntPt
  overlap : IntPt := ⟨0, 0⟩
deriving DecidableEq

/-- `geo.tile.toString` (`tile.js` lines 115-117):
`[this._index.level || 0, this._index.y, this._index.x].join('_')`. -/
def Tile.toKeyString (t : Tile) : String :=
  toString (t.index.level.getD 0) ++ "_" ++ toString t.index.y ++ "_" ++
    toString t.index.x

/-- `geo.tile.left` (`tile.js` lines 140-143):
`this.size.x * (this.index.x - (offset || 0)) - this.overlap.x`. -/
def Tile.left (t : Tile) (offset : Int) : Int :=
  t.size.x * (t.index.x - offset) - t.overlap.x

/-- `geo.tile.right` (`tile.js` lines 166-169):
`this.size.x * (this.index.x - (offset || 0) + 1) + this.overlap.x`. -/
def Tile.right (t : Tile) (offset : Int) : Int :=
  t.size.x * (t.index.x - offset + 1) + t.overlap.x

/-- `geo.tile.bottom` (`tile.js` lines 127-130):
`this.size.y * (this.index.y - (offset || 0)) - this.overlap.y`. -/
def Tile.bottom (t : Tile) (offset : Int) : Int :=
  t.size.y * (t.index.y - offset) - t.overlap.y

/-- `geo.tile.top` (`tile.js` lines 153-156):
`this.size.y * (this.index.y - (offset || 0) + 1) + this.overlap.y`. -/
def Tile.top (t : Tile) (offset : Int) : Int :=
  t.size.y * (t.index.y - offset + 1) + t.overlap.y

/-- Modelled from the spec: the default hash function of `geo.tileCache`
(its implementation, `src/core/tileCache.js`, is not in the source tree).
Spec §4.1: the default hash reads `index.level` (default 0), `index.y`,
`index.x` and produces the canonical key string `"<level>/<y>/<x>"`;
the repository's test suite expects `'0/15/10'` for index `{x:10,y:15}`. -/
def defaultHash (t : Tile) : String :=
  toString (t.index.level.getD 0) ++ "/" ++ toString t.index.y ++ "/" ++
    toString t.index.x

/-- Modelled from the spec: the state of `geo.tileCache`
(`src/core/tileCache.js` is not in the source tree).  Spec §3: a
caller-supplied hash function, a mutable non-negative capacity, and a
mapping from hashed-key strings to stored values carrying a strict
least-recently-used order.  `entries` keeps the most-recently-used entry
first, so eviction removes from the tail. -/
structure TileCache (V : Type) where
  hash : V → String
  capacity : Nat
  entries : List (String × V)

/-- Modelled from the spec: `geo.tileCache(config)` construction (spec §4.1,
§6): a fresh cache has no entries; `size` defaults to 64. -/
def tileCache {V : Type} (hash : V → String) (capacity : Nat := 64) :
    TileCache V :=
  ⟨hash, capacity, []⟩

/-- The number of distinct hashed keys currently stored (spec §3 `length`). -/
def TileCache.length {V : Type} (c : TileCache V) : Nat :=
  c.entries.length

/-- Drop every entry stored under hashed key `k` (at most one in any
reachable state, since the spec keeps one entry per distinct hashed key). -/
def removeKey {V : Type} (k : String) (es : List (String × V)) :
    List (String × V) :=
  es.filter (fun e => e.1 ≠ k)

/-- Find the entry stored under hashed key `k`, if any. -/
def findKey? {V : Type} (k : String) (es : List (String × V)) :
    Option (String × V) :=
  es.find? (fun e => e.1 = k)

/-- Modelled from the spec: one bounded run of the eviction loop of spec
§4.1 — "while `length > capacity`, the least-recently-used entry ... is
evicted".  The least-recently-used entry is the last of the MRU-first list;
`fuel` bounds the number of iterations so the loop is structurally
recursive. -/
def evictLoop {V : Type} (capacity : Nat) :
    Nat → List (String × V) → List (String × V)
  | 0, es => es
  | fuel + 1, es =>
    if es.length ≤ capacity then es else evictLoop capacity fuel es.dropLast

/-- Modelled from the spec: the eviction loop run to completion.  Every
iteration drops one entry, so `es.length` iterations always suffice. -/
def evictOver {V : Type} (capacity : Nat) (es : List (String × V)) :
    List (String × V) :=
  evictLoop capacity es.length es

/-- Modelled from the spec: `add(value)` (spec §4.1): compute
`k = hash(value)`; an existing entry under `k` is replaced in place and
marked most-recently-used (length unchanged), otherwise a new entry is
created most-recently-used; then while `length > capacity` the
least-recently-used entry is evicted. -/
def TileCache.add {V : Type} (c : TileCache V) (v : V) : TileCache V :=
  let k := c.hash v
  { c with entries := evictOver c.capacity ((k, v) :: removeKey k c.entries) }

/-- Run a sequence of `add` calls left to right. -/
def TileCache.addAll {V : Type} (c : TileCache V) (vs : List V) : TileCache V :=
  vs.foldl TileCache.add c

/-- Modelled from the spec: `get(key)` (spec §4.1): compute `k = hash(key)`;
on a hit, mark the entry most-recently-used and return the stored value; on
a miss, return the explicit "not found" sentinel (`none`) and leave the
eviction order untouched.  The returned pair is (result, updated cache). -/
def TileCache.get {V : Type} (c : TileCache V) (key : V) :
    Option V × TileCache V :=
  let k := c.hash key
  match findKey? k c.entries with
  | none => (none, c)
  | some e => (some e.2, { c with entries := e :: removeKey k c.entries })

/-- Modelled from the spec: `remove(key)` (spec §4.1): compute
`k = hash(key)`; delete the entry if present and report whether a removal
occurred; an absent key is a no-op reporting `false`. -/
def TileCache.remove {V : Type} (c : TileCache V) (key : V) :
    Bool × TileCache V :=
  let k := c.hash key
  match findKey? k c.entries with
  | none => (false, c)
  | some _ => (true, { c with entries := removeKey k c.entries })

/-- Modelled from the spec: `clear()` (spec §4.1): discard all entries;
capacity is unchanged. -/
def TileCache.clear {V : Type} (c : TileCache V) : TileCache V :=
  { c with entries := [] }

/-- Modelled from the spec: the `size`/`capacity` setter (spec §4.1): when
lowered below the current length, immediately evict least-recently-used
entries until `length <= capacity`; when raised, no immediate effect. -/
def TileCache.resize {V : Type} (c : TileCache V) (n : Nat) : TileCache V :=
  { c with capacity := n, entries := evictOver n c.entries }

/-- The per-tile bookkeeping fields of `geo.osmLayer` used by the eviction
pass (`osmLayer.js` `_addTile`: `tile.zoom`, `tile.index_x`, `tile.index_y`,
`tile.lastused`).  `lastused` is a `Date`, modelled as a monotone `Nat`
timestamp. -/
structure OsmTile where
  zoom : Int
  index_x : Int
  index_y : Int
  lastused : Nat
deriving DecidableEq

/-- One entry of `m_visibleTilesRange` (`osmLayer.js` `_addTiles`):
`{startX, endX, startY, endY}`. -/
structure TileRange where
  startX : Int
  endX : Int
  startY : Int
  endY : Int
deriving DecidableEq

/-- `isTileVisible` (`osmLayer.js` lines 124-134): the tile's zoom must be a
key of `m_visibleTilesRange` and its index must lie inside that range. -/
def isTileVisible (range : List (Int × TileRange)) (tile : OsmTile) : Bool :=
  match range.lookup tile.zoom with
  | some r =>
    decide (r.startX ≤ tile.index_x) && decide (tile.index_x ≤ r.endX) &&
      decide (r.startY ≤ tile.index_y) && decide (tile.index_y ≤ r.endY)
  | none => false

/-- Insert one tile into a list sorted ascending by `lastused` (a step of
the comparator sort `a.lastused - b.lastused` at `osmLayer.js` 283-285). -/
def insertByLastused (t : OsmTile) : List OsmTile → List OsmTile
  | [] => [t]
  | u :: us =>
    if t.lastused ≤ u.lastused then t :: u :: us
    else u :: insertByLastused t us

/-- Sort the pending-inactive tile list ascending by `lastused`
(`osmLayer.js` lines 283-285). -/
def sortByLastused : List OsmTile → List OsmTile
  | [] => []
  | t :: ts => insertByLastused t (sortByLastused ts)

/-- The eviction `while` loop of `_removeTiles` (`osmLayer.js` lines
287-304): walk the sorted pending list; while the cached-tile count still
exceeds `m_tileCacheSize`, a visible tile is skipped (`i += 1`) and an
invisible one is deleted (count decreases); once the count is within the
bound, the remaining tiles are all kept.  Returns the surviving tiles and
the final `m_numberOfCachedTiles`. -/
def removeTilesLoop (range : List (Int × TileRange)) (cacheSize : Nat) :
    List OsmTile → Nat → List OsmTile × Nat
  | [], count => ([], count)
  | t :: rest, count =>
    if count ≤ cacheSize then (t :: rest, count)
    else if isTileVisible range t then
      let r := removeTilesLoop range cacheSize rest count
      (t :: r.1, r.2)
    else removeTilesLoop range cacheSize rest (count - 1)

/-- The cache-bound phase of `geo.osmLayer._removeTiles` (`osmLayer.js`
lines 262-304): every cached tile is pushed onto the pending list, the list
is sorted by `lastused`, and the eviction loop runs. -/
def removeTiles (range : List (Int × TileRange)) (cacheSize : Nat)
    (pending : List OsmTile) (count : Nat) : List OsmTile × Nat :=
  removeTilesLoop range cacheSize (sortByLastused pending) count

/-- A concrete visible-range map: at zoom 3, columns 0-10 and rows 0-10 are
visible. -/
def demoRange : List (Int × TileRange) := [(3, ⟨0, 10, 0, 10⟩)]

/-- Two concrete cached tiles, both inside `demoRange` at zoom 3. -/
def demoTiles : List OsmTile := [⟨3, 1, 1, 5⟩, ⟨3, 2, 2, 7⟩]

/-! ### Basic lemmas about the cache primitives -/

theorem evictLoop_eq_take {V : Type} (capacity : Nat) :
    ∀ (fuel : Nat) (es : List (String × V)),
      es.length ≤ capacity + fuel →
      evictLoop capacity fuel es = es.take capacity := by
  intro fuel
  induction fuel with
  | zero =>
    intro es h
    rw [Nat.add_zero] at h
    rw [evictLoop, List.take_of_length_le h]
  | succ fuel ih =>
    intro es h
    by_cases hle : es.length ≤ capacity
    · rw [evictLoop, if_pos hle, List.take_of_length_le hle]
    · rw [evictLoop, if_neg hle,
        ih es.dropLast (by simp only [List.length_dropLast]; omega),
        List.dropLast_eq_take, List.take_take]
      congr 1
      omega

theorem evictOver_eq_take {V : Type} (capacity : Nat)
    (es : List (String × V)) : evictOver capacity es = es.take capacity :=
  evictLoop_eq_take capacity es.length es (by omega)

@[simp] theorem removeKey_nil {V : Type} (k : String) :
    removeKey k ([] : List (String × V)) = [] := rfl

theorem removeKey_cons_eq {V : Type} {k : String} {e : String × V}
    (es : List (String × V)) (h : e.1 = k) :
    removeKey k (e :: es) = removeKey k es := by
  simp [removeKey, List.filter_cons, h]

theorem removeKey_cons_ne {V : Type} {k : String} {e : String × V}
    (es : List (String × V)) (h : e.1 ≠ k) :
    removeKey k (e :: es) = e :: removeKey k es := by
  simp [removeKey, List.filter_cons, h]

theorem removeKey_sublist {V : Type} (k : String) (es : List (String × V)) :
    (removeKey k es).Sublist es :=
  List.filter_sublist es

theorem mem_map_fst_removeKey {V : Type} {k s : String}
    {es : List (String × V)} :
    s ∈ (removeKey k es).map Prod.fst ↔ s ∈ es.map Prod.fst ∧ s ≠ k := by
  induction es with
  | nil => simp
  | cons e es ih =>
    by_cases h : e.1 = k
    · rw [removeKey_cons_eq es h]
      simp only [List.map_cons, List.mem_cons, ih, h]
      constructor
      · exact fun hs => ⟨Or.inr hs.1, hs.2⟩
      · rintro ⟨hs | hs, hne⟩
        · exact absurd hs hne
        · exact ⟨hs, hne⟩
    · rw [removeKey_cons_ne es h]
      simp only [List.map_cons, List.mem_cons, ih]
      constructor
      · rintro (hs | hs)
        · exact ⟨Or.inl hs, hs ▸ h⟩
        · exact ⟨Or.inr hs.1, hs.2⟩
      · rintro ⟨hs | hs, hne⟩
        · exact Or.inl hs
        · exact Or.inr ⟨hs, hne⟩

theorem not_mem_map_fst_removeKey {V : Type} (k : String)
    (es : List (String × V)) : k ∉ (removeKey k es).map Prod.fst := by
  intro h
  exact (mem_map_fst_removeKey.mp h).2 rfl

theorem nodup_map_fst_removeKey {V : Type} (k : String)
    {es : List (String × V)} (h : (es.map Prod.fst).Nodup) :
    ((removeKey k es).map Prod.fst).Nodup :=
  h.sublist ((removeKey_sublist k es).map Prod.fst)

theorem removeKey_eq_of_not_mem {V : Type} {k : String}
    {es : List (String × V)} (h : k ∉ es.map Prod.fst) :
    removeKey k es = es := by
  rw [removeKey, List.filter_eq_self]
  intro e he
  simp only [ne_eq, decide_eq_true_eq]
  intro hk
  exact h (hk ▸ List.mem_map_of_mem Prod.fst he)

theorem length_removeKey_add_one {V : Type} {k : String}
    {es : List (String × V)} (hnd : (es.map Prod.fst).Nodup)
    (hmem : k ∈ es.map Prod.fst) :
    (removeKey k es).length + 1 = es.length := by
  induction es with
  | nil => simp at hmem
  | cons e es ih =>
    simp only [List.map_cons, List.nodup_cons] at hnd
    by_cases h : e.1 = k
    · rw [removeKey_cons_eq es h, removeKey_eq_of_not_mem (h ▸ hnd.1)]
      simp
    · simp only [List.map_cons, List.mem_cons] at hmem
      rcases hmem with hk | hk
      · exact absurd hk.symm h
      · rw [removeKey_cons_ne es h]
        simp only [List.length_cons, ih hnd.2 hk]

@[simp] theorem findKey?_nil {V : Type} (k : String) :
    findKey? k ([] : List (String × V)) = none := rfl

theorem findKey?_cons_eq {V : Type} {k : String} {e : String × V}
    (es : List (String × V)) (h : e.1 = k) :
    findKey? k (e :: es) = some e := by
  simp [findKey?, List.find?_cons, h]

theorem findKey?_cons_ne {V : Type} {k : String} {e : String × V}
    (es : List (String × V)) (h : e.1 ≠ k) :
    findKey? k (e :: es) = findKey? k es := by
  simp [findKey?, List.find?_cons, h]

theorem findKey?_eq_none_of_not_mem {V : Type} {k : String}
    {es : List (String × V)} (h : k ∉ es.map Prod.fst) :
    findKey? k es = none := by
  rw [findKey?, List.find?_eq_none]
  intro e he
  simp only [decide_eq_true_eq]
  intro hk
  exact h (hk ▸ List.mem_map_of_mem Prod.fst he)

theorem findKey?_of_mem {V : Type} {k : String} {es : List (String × V)}
    (hmem : k ∈ es.map Prod.fst) :
    ∃ e, findKey? k es = some e ∧ e.1 = k := by
  induction es with
  | nil => simp at hmem
  | cons e es ih =>
    by_cases h : e.1 = k
    · exact ⟨e, findKey?_cons_eq es h, h⟩
    · simp only [List.map_cons, List.mem_cons] at hmem
      rcases hmem with hk | hk
      · exact absurd hk.symm h
      · obtain ⟨e', he', hk'⟩ := ih hk
        exact ⟨e', (findKey?_cons_ne es h).trans he', hk'⟩

theorem add_capacity {V : Type} (c : TileCache V) (v : V) :
    (c.add v).capacity = c.capacity := rfl

theorem add_hash {V : Type} (c : TileCache V) (v : V) :
    (c.add v).hash = c.hash := rfl

theorem add_length_le {V : Type} (c : TileCache V) (v : V) :
    (c.add v).length ≤ c.capacity := by
  simp only [TileCache.add, TileCache.length, evictOver_eq_take,
    List.length_take]
  exact Nat.min_le_left _ _

theorem addAll_capacity {V : Type} (vs : List V) (c : TileCache V) :
    (c.addAll vs).capacity = c.capacity := by
  induction vs generalizing c with
  | nil => rfl
  | cons v vs ih => exact (ih (c.add v)).trans (add_capacity c v)

theorem addAll_length_le {V : Type} (vs : List V) (c : TileCache V)
    (h : c.length ≤ c.capacity) : (c.addAll vs).length ≤ c.capacity := by
  induction vs generalizing c with
  | nil => exact h
  | cons v vs ih =>
    have hstep : (c.add v).length ≤ (c.add v).capacity :=
      (add_capacity c v).symm ▸ add_length_le c v
    have := ih (c.add v) hstep
    rwa [add_capacity c v] at this

/-! ### Claim theorems -/

/-- C5: the canonical key of a tile is the string `"<level-or-0>/<y>/<x>"`:
the default cache hash depends only on `(level, y, x)` (never on size or
overlap), defaults `level` to 0 when absent, and for index `{x:10, y:15}`
with `level` absent produces exactly `"0/15/10"`. -/
theorem canonicalKey_spec (t₁ t₂ : Tile)
    (hl : t₁.index.level = t₂.index.level)
    (hy : t₁.index.y = t₂.index.y)
    (hx : t₁.index.x = t₂.index.x) :
    defaultHash t₁ = defaultHash t₂ ∧
    defaultHash ⟨⟨10, 15, none⟩, ⟨100, 100⟩, ⟨0, 0⟩⟩ = "0/15/10" ∧
    (∀ t : Tile, t.index.level = none →
      defaultHash t =
        defaultHash ⟨⟨t.index.x, t.index.y, some 0⟩, t.size, t.overlap⟩) := by
  refine ⟨by simp [defaultHash, hl, hy, hx], by decide, ?_⟩
  intro t ht
  simp [defaultHash, ht]

/-- Witness for C5: two tiles sharing `(level, y, x)` but with different
sizes and overlaps hash to the same canonical key. -/
theorem canonicalKey_spec_witness :
    defaultHash ⟨⟨10, 15, some 2⟩, ⟨100, 100⟩, ⟨0, 0⟩⟩ =
      defaultHash ⟨⟨10, 15, some 2⟩, ⟨256, 256⟩, ⟨5, 5⟩⟩ :=
  (canonicalKey_spec ⟨⟨10, 15, some 2⟩, ⟨100, 100⟩, ⟨0, 0⟩⟩
    ⟨⟨10, 15, some 2⟩, ⟨256, 256⟩, ⟨5, 5⟩⟩ rfl rfl rfl).1

/-- C6: the edge functions satisfy `left = sx*(x-d) - ox`,
`right = sx*(x-d+1) + ox`, `bottom = sy*(y-d) - oy`, `top = sy*(y-d+1) + oy`;
a tile with index `{0,0}`, size `{100,100}` and no overlap has
`left()=0, right()=100, bottom()=0, top()=100`, and with overlap `{5,5}`
has `left()=-5, right()=105`. -/
theorem tile_edge_formulas (t : Tile) (d : Int) :
    (t.left d = t.size.x * (t.index.x - d) - t.overlap.x ∧
     t.right d = t.size.x * (t.index.x - d + 1) + t.overlap.x ∧
     t.bottom d = t.size.y * (t.index.y - d) - t.overlap.y ∧
     t.top d = t.size.y * (t.index.y - d + 1) + t.overlap.y) ∧
    ((⟨⟨0, 0, none⟩, ⟨100, 100⟩, ⟨0, 0⟩⟩ : Tile).left 0 = 0 ∧
     (⟨⟨0, 0, none⟩, ⟨100, 100⟩, ⟨0, 0⟩⟩ : Tile).right 0 = 100 ∧
     (⟨⟨0, 0, none⟩, ⟨100, 100⟩, ⟨0, 0⟩⟩ : Tile).bottom 0 = 0 ∧
     (⟨⟨0, 0, none⟩, ⟨100, 100⟩, ⟨0, 0⟩⟩ : Tile).top 0 = 100) ∧
    ((⟨⟨0, 0, none⟩, ⟨100, 100⟩, ⟨5, 5⟩⟩ : Tile).left 0 = -5 ∧
     (⟨⟨0, 0, none⟩, ⟨100, 100⟩, ⟨5, 5⟩⟩ : Tile).right 0 = 105) :=
  ⟨⟨rfl, rfl, rfl, rfl⟩,
   ⟨by decide, by decide, by decide, by decide⟩,
   by decide, by decide⟩

/-- C7: the offset is a pure translation before scaling: each edge at
offset `d` is the edge at offset 0 shifted by `size * d`, and the tile
width `right - left` is independent of the offset. -/
theorem tile_offset_is_translation (t : Tile) (d : Int) :
    t.left d = t.left 0 - t.size.x * d ∧
    t.right d = t.right 0 - t.size.x * d ∧
    t.bottom d = t.bottom 0 - t.size.y * d ∧
    t.top d = t.top 0 - t.size.y * d ∧
    t.right d - t.left d = t.size.x + 2 * t.overlap.x := by
  refine ⟨?_, ?_, ?_, ?_, ?_⟩ <;>
    (simp only [Tile.left, Tile.right, Tile.bottom, Tile.top]; ring)

/-- C1: after any nonempty sequence of `add` calls the cache's length is at
most its (unchanged) capacity; a capacity-0 cache retains nothing after any
sequence of `add` calls. -/
theorem cache_capacity_invariant {V : Type} (hf : V → String)
    (c : TileCache V) (vs : List V) (hne : vs ≠ []) :
    (c.addAll vs).length ≤ c.capacity ∧
    (c.addAll vs).capacity = c.capacity ∧
    ((tileCache hf 0).addAll vs).length = 0 := by
  refine ⟨?_, addAll_capacity vs c, ?_⟩
  · match vs, hne with
    | v :: vs, _ =>
      have hstep : (c.add v).length ≤ (c.add v).capacity :=
        (add_capacity c v).symm ▸ add_length_le c v
      have h := addAll_length_le vs (c.add v) hstep
      rwa [add_capacity c v] at h
  · exact Nat.le_zero.mp (addAll_length_le vs (tileCache hf 0) (Nat.le_refl 0))

/-- Witness for C1: three adds into a capacity-2 integer cache leave length
at most 2, capacity 2, and a capacity-0 cache empty. -/
theorem cache_capacity_invariant_witness :
    ((tileCache (fun i : Int => toString i) 2).addAll [1, 2, 3]).length ≤
      (tileCache (fun i : Int => toString i) 2).capacity ∧
    ((tileCache (fun i : Int => toString i) 2).addAll [1, 2, 3]).capacity =
      (tileCache (fun i : Int => toString i) 2).capacity ∧
    ((tileCache (fun i : Int => toString i) 0).addAll [1, 2, 3]).length = 0 :=
  cache_capacity_invariant (fun i : Int => toString i)
    (tileCache (fun i : Int => toString i) 2) [1, 2, 3] (by simp)

/-- C3: raising the capacity evicts nothing; lowering it synchronously
evicts exactly `max(0, oldLength - newCapacity)` entries (in `Nat`
subtraction, `oldLength - newCapacity`), least-recently-used first — the
survivors are the `newCapacity` most recently used entries — so that
`length ≤ capacity` holds immediately afterwards. -/
theorem cache_resize_spec {V : Type} (c : TileCache V) (n : Nat)
    (h : c.length ≤ c.capacity) :
    (c.capacity ≤ n →
      (c.resize n).entries = c.entries ∧ (c.resize n).length = c.length) ∧
    (c.resize n).length = min c.length n ∧
    c.length - (c.resize n).length = c.length - n ∧
    (c.resize n).length ≤ (c.resize n).capacity ∧
    (c.resize n).entries = c.entries.take n := by
  have he : (c.resize n).entries = c.entries.take n := by
    simp [TileCache.resize, evictOver_eq_take]
  have hl : (c.resize n).length = min n c.entries.length := by
    rw [TileCache.length, he, List.length_take]
  have hcap : (c.resize n).capacity = n := rfl
  have hL : c.length = c.entries.length := rfl
  rw [hL] at h
  refine ⟨?_, ?_, ?_, ?_, he⟩
  · intro hn
    have hlen : c.entries.length ≤ n := le_trans h hn
    exact ⟨he.trans (List.take_of_length_le hlen), by rw [hl, hL]; omega⟩
  · rw [hl, hL]; omega
  · rw [hl, hL]; omega
  · rw [hl, hcap]; omega

/-- Witness for C3: shrinking a full 3-entry cache to capacity 1 keeps
exactly the most recently used entry. -/
theorem cache_resize_spec_witness :
    ((⟨fun i : Int => toString i, 3, [("3", 3), ("2", 2), ("1", 1)]⟩ :
        TileCache Int).resize 1).entries =
      [("3", 3), ("2", 2), ("1", 1)].take 1 :=
  (cache_resize_spec
    (⟨fun i : Int => toString i, 3, [("3", 3), ("2", 2), ("1", 1)]⟩ :
      TileCache Int) 1 (by decide)).2.2.2.2

/-- C2: eviction is least-recently-used on access (`add` or a `get` hit):
with capacity 2, after `add A`, `add B`, `add C` with pairwise distinct
hashes, the victim is `A` (`get A` misses while `B` and `C` hit); and in
the concrete sequence add(-1), add(-2), add(-3), get(-2), add(-4), the
entry -3 is evicted (a subsequent get(-3) misses) while -2 and -4 remain
present. -/
theorem cache_lru_eviction {V : Type} (hf : V → String) (A B C : V)
    (hab : hf A ≠ hf B) (hac : hf A ≠ hf C) (hbc : hf B ≠ hf C) :
    ((((((tileCache hf 2).add A).add B).add C).get A).1 = none ∧
     (((((tileCache hf 2).add A).add B).add C).get B).1 = some B ∧
     (((((tileCache hf 2).add A).add B).add C).get C).1 = some C) ∧
    (((((((((tileCache (fun i : Int => toString i) 2).add (-1)).add
        (-2)).add (-3)).get (-2)).2).add (-4)).get (-3)).1 = none ∧
     ((((((((tileCache (fun i : Int => toString i) 2).add (-1)).add
        (-2)).add (-3)).get (-2)).2).add (-4)).get (-2)).1 = some (-2) ∧
     ((((((((tileCache (fun i : Int => toString i) 2).add (-1)).add
        (-2)).add (-3)).get (-2)).2).add (-4)).get (-4)).1 = some (-4)) := by
  refine ⟨⟨?_, ?_, ?_⟩, by decide, by decide, by decide⟩ <;>
    simp [TileCache.add, TileCache.get, tileCache, evictOver, evictLoop,
      removeKey, findKey?, hab, hac, hbc, Ne.symm hab, Ne.symm hac,
      Ne.symm hbc]

/-- Witness for C2: the abstract LRU statement instantiated at the integer
cache with the identity-string hash and values 1, 2, 3. -/
theorem cache_lru_eviction_witness :
    (((((tileCache (fun i : Int => toString i) 2).add 1).add 2).add
        3).get 1).1 = none ∧
    (((((tileCache (fun i : Int => toString i) 2).add 1).add 2).add
        3).get 2).1 = some 2 ∧
    (((((tileCache (fun i : Int => toString i) 2).add 1).add 2).add
        3).get 3).1 = some 3 :=
  (cache_lru_eviction (fun i : Int => toString i) 1 2 3
    (by decide) (by decide) (by decide)).1

/-- C4: `get` on a key absent from the cache returns the explicit
"not found" sentinel `none`, and that sentinel is distinct from the result
of any hit — a hit returns `some v`, so no legitimately stored value
(including zero-like ones) can be confused with it. -/
theorem cache_get_miss {V : Type} (c : TileCache V) (key : V)
    (habs : c.hash key ∉ c.entries.map Prod.fst) :
    (c.get key).1 = none ∧
    (∀ v : V, (c.get key).1 ≠ some v) ∧
    (c.get key).2 = c := by
  have hfind : findKey? (c.hash key) c.entries = none :=
    findKey?_eq_none_of_not_mem habs
  have hg : c.get key = (none, c) := by
    rw [TileCache.get]
    simp only [hfind]
  rw [hg]
  exact ⟨rfl, fun v h => Option.noConfusion h, rfl⟩

/-- Witness for C4: getting the key 9 from a cache holding only keys "1"
and "2" misses with the `none` sentinel, and the sentinel differs from
`some 0` even though 0 is a falsy stored value in the original host
language. -/
theorem cache_get_miss_witness :
    ((⟨fun i : Int => toString i, 2, [("1", 1), ("2", 0)]⟩ :
        TileCache Int).get 9).1 = none ∧
    ((⟨fun i : Int => toString i, 2, [("1", 1), ("2", 0)]⟩ :
        TileCache Int).get 9).1 ≠ some 0 :=
  ⟨(cache_get_miss
      (⟨fun i : Int => toString i, 2, [("1", 1), ("2", 0)]⟩ : TileCache Int)
      9 (by decide)).1,
   (cache_get_miss
      (⟨fun i : Int => toString i, 2, [("1", 1), ("2", 0)]⟩ : TileCache Int)
      9 (by decide)).2.1 0⟩

/-- C8: `add`ing a value whose hash collides with an existing entry
overwrites that entry in place and marks it most-recently-used: the length
is unchanged, the head of the access order is the new value under the old
hashed key, the overwritten value is what a subsequent `get` returns, and
the keys stay duplicate-free. -/
theorem cache_add_overwrites {V : Type} (c : TileCache V) (v : V)
    (hnd : (c.entries.map Prod.fst).Nodup)
    (hmem : c.hash v ∈ c.entries.map Prod.fst)
    (hlen : c.length ≤ c.capacity) :
    (c.add v).length = c.length ∧
    (c.add v).entries.head? = some (c.hash v, v) ∧
    ((c.add v).get v).1 = some v ∧
    ((c.add v).entries.map Prod.fst).Nodup := by
  have hcount : ((c.hash v, v) :: removeKey (c.hash v) c.entries).length =
      c.entries.length := by
    rw [List.length_cons, length_removeKey_add_one hnd hmem]
  have hfit : ((c.hash v, v) :: removeKey (c.hash v) c.entries).length ≤
      c.capacity := hcount ▸ hlen
  have hent : (c.add v).entries =
      (c.hash v, v) :: removeKey (c.hash v) c.entries := by
    rw [TileCache.add]
    simp only [evictOver_eq_take]
    exact List.take_of_length_le hfit
  refine ⟨?_, ?_, ?_, ?_⟩
  · rw [TileCache.length, hent, hcount]; rfl
  · rw [hent]; rfl
  · have hfk : findKey? (c.hash v)
        ((c.hash v, v) :: removeKey (c.hash v) c.entries) =
        some (c.hash v, v) :=
      findKey?_cons_eq _ rfl
    rw [TileCache.get, add_hash, hent]
    simp only [hfk]
  · rw [hent, List.map_cons, List.nodup_cons]
    exact ⟨not_mem_map_fst_removeKey (c.hash v) c.entries,
      nodup_map_fst_removeKey (c.hash v) hnd⟩

/-- Witness for C8: re-adding key "2" to a two-entry cache keeps the length
at 2 and moves the entry to the most-recently-used position. -/
theorem cache_add_overwrites_witness :
    ((⟨fun i : Int => toString i, 2, [("1", 1), ("2", 2)]⟩ :
        TileCache Int).add 2).length =
      (⟨fun i : Int => toString i, 2, [("1", 1), ("2", 2)]⟩ :
        TileCache Int).length ∧
    ((⟨fun i : Int => toString i, 2, [("1", 1), ("2", 2)]⟩ :
        TileCache Int).add 2).entries.head? = some ("2", 2) :=
  ⟨(cache_add_overwrites
      (⟨fun i : Int => toString i, 2, [("1", 1), ("2", 2)]⟩ : TileCache Int)
      2 (by decide) (by decide) (by decide)).1,
   (cache_add_overwrites
      (⟨fun i : Int => toString i, 2, [("1", 1), ("2", 2)]⟩ : TileCache Int)
      2 (by decide) (by decide) (by decide)).2.1⟩

/-- C9: `remove` on a present key reports `true`, decreases the length by
exactly one, and makes a subsequent `get` on the same key miss; `remove` on
an absent key reports `false` and leaves the cache unchanged. -/
theorem cache_remove_spec {V : Type} (c : TileCache V) (key : V)
    (hnd : (c.entries.map Prod.fst).Nodup) :
    (c.hash key ∈ c.entries.map Prod.fst →
      (c.remove key).1 = true ∧
      (c.remove key).2.length + 1 = c.length ∧
      ((c.remove key).2.get key).1 = none) ∧
    (c.hash key ∉ c.entries.map Prod.fst →
      (c.remove key).1 = false ∧ (c.remove key).2 = c) := by
  constructor
  · intro hmem
    obtain ⟨e, he, -⟩ := findKey?_of_mem hmem
    have hr : c.remove key =
        (true, { c with entries := removeKey (c.hash key) c.entries }) := by
      rw [TileCache.remove]
      simp only [he]
    rw [hr]
    refine ⟨rfl, length_removeKey_add_one hnd hmem, ?_⟩
    rw [TileCache.get]
    simp only [findKey?_eq_none_of_not_mem
      (not_mem_map_fst_removeKey (c.hash key) c.entries)]
  · intro habs
    have hr : c.remove key = (false, c) := by
      rw [TileCache.remove]
      simp only [findKey?_eq_none_of_not_mem habs]
    rw [hr]
    exact ⟨rfl, rfl⟩

/-- Witness for C9: removing present key "2" succeeds and shrinks the cache
from 2 entries to 1; removing absent key 9 reports false and is a no-op. -/
theorem cache_remove_spec_witness :
    (((⟨fun i : Int => toString i, 2, [("1", 1), ("2", 2)]⟩ :
        TileCache Int).remove 2).1 = true ∧
      ((⟨fun i : Int => toString i, 2, [("1", 1), ("2", 2)]⟩ :
        TileCache Int).remove 2).2.length + 1 =
        (⟨fun i : Int => toString i, 2, [("1", 1), ("2", 2)]⟩ :
          TileCache Int).length ∧
      (((⟨fun i : Int => toString i, 2, [("1", 1), ("2", 2)]⟩ :
        TileCache Int).remove 2).2.get 2).1 = none) ∧
    (((⟨fun i : Int => toString i, 2, [("1", 1), ("2", 2)]⟩ :
        TileCache Int).remove 9).1 = false ∧
      ((⟨fun i : Int => toString i, 2, [("1", 1), ("2", 2)]⟩ :
        TileCache Int).remove 9).2 =
        (⟨fun i : Int => toString i, 2, [("1", 1), ("2", 2)]⟩ :
          TileCache Int)) :=
  ⟨(cache_remove_spec
      (⟨fun i : Int => toString i, 2, [("1", 1), ("2", 2)]⟩ : TileCache Int)
      2 (by decide)).1 (by decide),
   (cache_remove_spec
      (⟨fun i : Int => toString i, 2, [("1", 1), ("2", 2)]⟩ : TileCache Int)
      9 (by decide)).2 (by decide)⟩

theorem mem_insertByLastused {t u : OsmTile} {l : List OsmTile} :
    u ∈ insertByLastused t l ↔ u = t ∨ u ∈ l := by
  induction l with
  | nil => simp [insertByLastused]
  | cons v vs ih =>
    by_cases h : t.lastused ≤ v.lastused
    · simp [insertByLastused, h]
    · simp only [insertByLastused, if_neg h, List.mem_cons, ih]
      tauto

theorem mem_sortByLastused {u : OsmTile} {l : List OsmTile} :
    u ∈ sortByLastused l ↔ u ∈ l := by
  induction l with
  | nil => simp [sortByLastused]
  | cons v vs ih => simp [sortByLastused, mem_insertByLastused, ih]

theorem removeTilesLoop_keeps_visible (range : List (Int × TileRange))
    (cacheSize : Nat) :
    ∀ (l : List OsmTile) (count : Nat) (t : OsmTile), t ∈ l →
      isTileVisible range t = true →
      t ∈ (removeTilesLoop range cacheSize l count).1 := by
  intro l
  induction l with
  | nil =>
    intro count t hmem _
    simp at hmem
  | cons u us ih =>
    intro count t hmem hvis
    by_cases hc : count ≤ cacheSize
    · rw [removeTilesLoop, if_pos hc]
      exact hmem
    · by_cases hv : isTileVisible range u = true
      · rw [removeTilesLoop, if_neg hc, if_pos hv]
        rcases List.mem_cons.mp hmem with h | h
        · exact h ▸ List.mem_cons_self _ _
        · exact List.mem_cons_of_mem u (ih count t h hvis)
      · rcases List.mem_cons.mp hmem with h | h
        · exact absurd (h ▸ hvis) hv
        · rw [removeTilesLoop, if_neg hc, if_neg hv]
          exact ih (count - 1) t h hvis

/-- C10: in `osmLayer._removeTiles`, a tile whose index lies inside the
current visible tile range is never deleted, even when the cached-tile
count exceeds `tileCacheSize`; consequently the pass can finish with the
count still strictly above the bound (here: two visible tiles survive a
bound of 1, leaving the count at 2). -/
theorem osm_removeTiles_keeps_visible (range : List (Int × TileRange))
    (cacheSize : Nat) (pending : List OsmTile) (count : Nat) (t : OsmTile)
    (hmem : t ∈ pending) (hvis : isTileVisible range t = true) :
    t ∈ (removeTiles range cacheSize pending count).1 ∧
    ((removeTiles demoRange 1 demoTiles 2).2 = 2 ∧
      1 < (removeTiles demoRange 1 demoTiles 2).2) := by
  refine ⟨?_, by decide, by decide⟩
  exact removeTilesLoop_keeps_visible range cacheSize
    (sortByLastused pending) count t (mem_sortByLastused.mpr hmem) hvis

/-- Witness for C10: the first demo tile is visible in the demo range and
survives the eviction pass with bound 1 and cached count 2. -/
theorem osm_removeTiles_keeps_visible_witness :
    (⟨3, 1, 1, 5⟩ : OsmTile) ∈
      (removeTiles demoRange 1 demoTiles 2).1 ∧
    ((removeTiles demoRange 1 demoTiles 2).2 = 2 ∧
      1 < (removeTiles demoRange 1 demoTiles 2).2) :=
  osm_removeTiles_keeps_visible demoRange 1 demoTiles 2 ⟨3, 1, 1, 5⟩
    (by decide) (by decide)

end GeoJS
